import Mathlib

/-!
Verification of the voxmesh solid-voxelization tool (`src/voxmesh/main.cpp`).

The C++ source is shallowly embedded:
* C++ `int` values become `ℤ`; `%` and `/` on `int` (truncated division) become
  `Int.tmod` and `Int.tdiv`.
* `double` values become `ℚ` (the algorithms only use field operations and
  comparisons, which coincide with exact real arithmetic on representable
  inputs).
* `unsigned char` voxel values become `ℕ`, with wrap-around made explicit
  where the code subtracts.
* `geo_assert` is modelled by returning an `Option`, where `none` means the
  assertion fired.
Stateful loops become structural/well-founded recursion with explicit state.
-/

namespace VoxMesh

/-- `GEO::vec3i`: a triple of C++ ints. -/
structure Vec3i where
  x : ℤ
  y : ℤ
  z : ℤ
  deriving DecidableEq, Repr

instance : Add Vec3i := ⟨fun a b => ⟨a.x + b.x, a.y + b.y, a.z + b.z⟩⟩

theorem Vec3i.add_def (a b : Vec3i) : a + b = ⟨a.x + b.x, a.y + b.y, a.z + b.z⟩ := rfl

/-- Component access `v[i]` of a `GEO::vec3i`. -/
def Vec3i.nth (v : Vec3i) : Fin 3 → ℤ
  | 0 => v.x
  | 1 => v.y
  | 2 => v.z

/-- Component assignment `v[i] = a` of a `GEO::vec3i`. -/
def Vec3i.setNth (v : Vec3i) : Fin 3 → ℤ → Vec3i
  | 0, a => ⟨a, v.y, v.z⟩
  | 1, a => ⟨v.x, a, v.z⟩
  | 2, a => ⟨v.x, v.y, a⟩

/-- `Layout::index3_from_index` from `src/voxmesh/main.cpp`:
`(idx % size[0], (idx / size[0]) % size[1], (idx / size[0]) / size[1])`,
with C++ truncated `int` division. -/
def index3_from_index (idx : ℤ) (size : Vec3i) : Vec3i :=
  ⟨idx.tmod size.x, (idx.tdiv size.x).tmod size.y, (idx.tdiv size.x).tdiv size.y⟩

/-- `Layout::index_from_index3` from `src/voxmesh/main.cpp`:
`(vx[2] * size[1] + vx[1]) * size[0] + vx[0]`. -/
def index_from_index3 (vx : Vec3i) (size : Vec3i) : ℤ :=
  (vx.z * size.y + vx.y) * size.x + vx.x

theorem linear_index_nonneg (size : Vec3i) (x y z : ℤ)
    (hx : 0 ≤ x) (hy : 0 ≤ y) (hz : 0 ≤ z)
    (hnx : 0 ≤ size.x) (hny : 0 ≤ size.y) :
    0 ≤ index_from_index3 ⟨x, y, z⟩ size := by
  have h1 : 0 ≤ z * size.y := mul_nonneg hz hny
  have h2 : 0 ≤ (z * size.y + y) * size.x := mul_nonneg (by linarith) hnx
  simp only [index_from_index3]
  linarith

/-- C2: for `0 ≤ x < nx`, `0 ≤ y < ny`, `0 ≤ z < nz`, `index_from_index3`
computes `(z*ny + y)*nx + x`, and `index3_from_index` recovers `(x, y, z)`:
the two layout functions are mutual inverses over the valid index range. -/
theorem layout_index_bijection (size : Vec3i) (x y z : ℤ)
    (hx : 0 ≤ x ∧ x < size.x) (hy : 0 ≤ y ∧ y < size.y) (hz : 0 ≤ z ∧ z < size.z) :
    index_from_index3 ⟨x, y, z⟩ size = (z * size.y + y) * size.x + x ∧
    index3_from_index (index_from_index3 ⟨x, y, z⟩ size) size = ⟨x, y, z⟩ := by
  obtain ⟨hx0, hx1⟩ := hx
  obtain ⟨hy0, hy1⟩ := hy
  obtain ⟨hz0, hz1⟩ := hz
  have hnx : 0 ≤ size.x := le_trans hx0 (le_of_lt hx1)
  have hny : 0 ≤ size.y := le_trans hy0 (le_of_lt hy1)
  have hnx0 : size.x ≠ 0 := by omega
  have hny0 : size.y ≠ 0 := by omega
  refine ⟨rfl, ?_⟩
  have hn : index_from_index3 ⟨x, y, z⟩ size = x + size.x * (z * size.y + y) := by
    simp only [index_from_index3]; ring
  have hnn : 0 ≤ index_from_index3 ⟨x, y, z⟩ size :=
    linear_index_nonneg size x y z hx0 hy0 hz0 hnx hny
  have hq : 0 ≤ z * size.y + y := by
    have := mul_nonneg hz0 hny
    linarith
  -- the two truncated divisions agree with Euclidean division on nonnegatives
  have hmod : (index_from_index3 ⟨x, y, z⟩ size).tmod size.x = x := by
    rw [Int.tmod_eq_emod hnn hnx, hn, Int.add_mul_emod_self_left,
      Int.emod_eq_of_lt hx0 hx1]
  have hdiv : (index_from_index3 ⟨x, y, z⟩ size).tdiv size.x = z * size.y + y := by
    rw [Int.tdiv_eq_ediv hnn hnx, hn, Int.add_mul_ediv_left _ _ hnx0,
      Int.ediv_eq_zero_of_lt hx0 hx1, zero_add]
  have hq' : z * size.y + y = y + size.y * z := by ring
  have hmod2 : (z * size.y + y).tmod size.y = y := by
    rw [Int.tmod_eq_emod hq hny, hq', Int.add_mul_emod_self_left,
      Int.emod_eq_of_lt hy0 hy1]
  have hdiv2 : (z * size.y + y).tdiv size.y = z := by
    rw [Int.tdiv_eq_ediv hq hny, hq', Int.add_mul_ediv_left _ _ hny0,
      Int.ediv_eq_zero_of_lt hy0 hy1, zero_add]
  simp only [index3_from_index, hmod, hdiv, hmod2, hdiv2]

/-- Witness for C2 at size 4×3×5, voxel (2, 1, 3). -/
theorem layout_index_bijection_witness :
    ((0:ℤ) ≤ 2 ∧ (2:ℤ) < 4) ∧ ((0:ℤ) ≤ 1 ∧ (1:ℤ) < 3) ∧ ((0:ℤ) ≤ 3 ∧ (3:ℤ) < 5) ∧
    (index_from_index3 ⟨2, 1, 3⟩ ⟨4, 3, 5⟩ = (3 * 3 + 1) * 4 + 2 ∧
     index3_from_index (index_from_index3 ⟨2, 1, 3⟩ ⟨4, 3, 5⟩) ⟨4, 3, 5⟩ = ⟨2, 1, 3⟩) :=
  ⟨⟨by decide, by decide⟩, ⟨by decide, by decide⟩, ⟨by decide, by decide⟩,
    layout_index_bijection ⟨4, 3, 5⟩ 2 1 3 ⟨by decide, by decide⟩ ⟨by decide, by decide⟩
      ⟨by decide, by decide⟩⟩

/-! ### Robust point-in-triangle test (`orientation`, `point_in_triangle_2d`) -/

/-- `orientation` from `src/voxmesh/main.cpp`: twice signed area of the
triangle `(0,0)-(x1,y1)-(x2,y2)` together with an SOS-determined sign.
The C++ returns the sign and writes the area through a reference; here the
pair `(sign, twice_signed_area)` is returned. -/
def orientation (x1 y1 x2 y2 : ℚ) : ℤ × ℚ :=
  let twice_signed_area := y1 * x2 - x1 * y2
  if twice_signed_area > 0 then (1, twice_signed_area)
  else if twice_signed_area < 0 then (-1, twice_signed_area)
  else if y2 > y1 then (1, twice_signed_area)
  else if y2 < y1 then (-1, twice_signed_area)
  else if x1 > x2 then (1, twice_signed_area)
  else if x1 < x2 then (-1, twice_signed_area)
  else (0, twice_signed_area)

/-- Result of `point_in_triangle_2d`: C++ `false`, C++ `true` with the three
barycentric output parameters, or a fired `geo_assert`. -/
inductive PitResult where
  | assertFailed : PitResult
  | outside : PitResult
  | inside (a b c : ℚ) : PitResult
  deriving DecidableEq, Repr

/-- `point_in_triangle_2d` from `src/voxmesh/main.cpp`: robust test of
`(x0,y0)` in the triangle `(x1,y1)-(x2,y2)-(x3,y3)`.  The translation of all
points by `-(x0,y0)`, the three `orientation` calls, the early exits, the
`geo_assert(sum != 0)` and the division by the sum follow the source
line by line. -/
def point_in_triangle_2d (x0 y0 x1 y1 x2 y2 x3 y3 : ℚ) : PitResult :=
  let x1 := x1 - x0
  let x2 := x2 - x0
  let x3 := x3 - x0
  let y1 := y1 - y0
  let y2 := y2 - y0
  let y3 := y3 - y0
  let sa := orientation x2 y2 x3 y3
  if sa.1 = 0 then .outside
  else
    let sb := orientation x3 y3 x1 y1
    if sb.1 ≠ sa.1 then .outside
    else
      let sc := orientation x1 y1 x2 y2
      if sc.1 ≠ sa.1 then .outside
      else
        let sum := sa.2 + sb.2 + sc.2
        if sum = 0 then .assertFailed
        else .inside (sa.2 / sum) (sb.2 / sum) (sc.2 / sum)

theorem orientation_area (x1 y1 x2 y2 : ℚ) :
    (orientation x1 y1 x2 y2).2 = y1 * x2 - x1 * y2 := by
  simp only [orientation]
  split_ifs <;> rfl

theorem orientation_sign_trichotomy (x1 y1 x2 y2 : ℚ) :
    (orientation x1 y1 x2 y2).1 = 0 ∨ (orientation x1 y1 x2 y2).1 = 1 ∨
      (orientation x1 y1 x2 y2).1 = -1 := by
  simp only [orientation]
  split_ifs <;> simp

/-- A positive SOS sign means the area is nonnegative, and if the area is
zero then `(y2, -x2)` is lexicographically above `(y1, -x1)`. -/
theorem orientation_eq_one (x1 y1 x2 y2 : ℚ)
    (h : (orientation x1 y1 x2 y2).1 = 1) :
    0 ≤ y1 * x2 - x1 * y2 ∧
      (y1 * x2 - x1 * y2 = 0 → (y1 < y2 ∨ (y2 = y1 ∧ x2 < x1))) := by
  simp only [orientation] at h
  split_ifs at h with h1 h2 h3 h4 h5 h6 <;>
    first
    | exact ⟨le_of_lt h1, fun hz => absurd hz (ne_of_gt h1)⟩
    | (push_neg at h1 h2
       constructor
       · linarith
       · intro _
         first
         | exact Or.inl h3
         | (push_neg at h3
            refine Or.inr ⟨le_antisymm h3 ?_, ?_⟩ <;> first | linarith | assumption)
         | simp_all)
    | simp_all

/-- A negative SOS sign means the area is nonpositive, and if the area is
zero then `(y2, -x2)` is lexicographically below `(y1, -x1)`. -/
theorem orientation_eq_neg_one (x1 y1 x2 y2 : ℚ)
    (h : (orientation x1 y1 x2 y2).1 = -1) :
    y1 * x2 - x1 * y2 ≤ 0 ∧
      (y1 * x2 - x1 * y2 = 0 → (y2 < y1 ∨ (y2 = y1 ∧ x1 < x2))) := by
  simp only [orientation] at h
  split_ifs at h with h1 h2 h3 h4 h5 h6 <;>
    first
    | exact ⟨le_of_lt h2, fun hz => absurd hz (ne_of_lt h2)⟩
    | (push_neg at h1 h2
       constructor
       · linarith
       · intro _
         first
         | exact Or.inl h4
         | (push_neg at h3 h4
            refine Or.inr ⟨le_antisymm h3 h4, ?_⟩
            linarith))

/-- Core of C4: if the three SOS-determined signs of the translated triangle
agree and are nonzero, the sum of the three twice-signed areas is nonzero. -/
theorem sos_sum_ne_zero (x1 y1 x2 y2 x3 y3 : ℚ)
    (ha : (orientation x2 y2 x3 y3).1 ≠ 0)
    (hb : (orientation x3 y3 x1 y1).1 = (orientation x2 y2 x3 y3).1)
    (hc : (orientation x1 y1 x2 y2).1 = (orientation x2 y2 x3 y3).1) :
    (orientation x2 y2 x3 y3).2 + (orientation x3 y3 x1 y1).2 +
      (orientation x1 y1 x2 y2).2 ≠ 0 := by
  rw [orientation_area, orientation_area, orientation_area]
  rcases orientation_sign_trichotomy x2 y2 x3 y3 with h0 | h1 | hm1
  · exact absurd h0 ha
  · -- all three signs are +1
    obtain ⟨ha1, ha2⟩ := orientation_eq_one x2 y2 x3 y3 h1
    obtain ⟨hb1, hb2⟩ := orientation_eq_one x3 y3 x1 y1 (hb.trans h1)
    obtain ⟨hc1, hc2⟩ := orientation_eq_one x1 y1 x2 y2 (hc.trans h1)
    intro hsum
    have hza : y2 * x3 - x2 * y3 = 0 := by linarith
    have hzb : y3 * x1 - x3 * y1 = 0 := by linarith
    have hzc : y1 * x2 - x1 * y2 = 0 := by linarith
    rcases ha2 hza with h | ⟨h, h'⟩ <;> rcases hb2 hzb with g | ⟨g, g'⟩ <;>
      rcases hc2 hzc with f | ⟨f, f'⟩ <;> linarith
  · -- all three signs are -1
    obtain ⟨ha1, ha2⟩ := orientation_eq_neg_one x2 y2 x3 y3 hm1
    obtain ⟨hb1, hb2⟩ := orientation_eq_neg_one x3 y3 x1 y1 (hb.trans hm1)
    obtain ⟨hc1, hc2⟩ := orientation_eq_neg_one x1 y1 x2 y2 (hc.trans hm1)
    intro hsum
    have hza : y2 * x3 - x2 * y3 = 0 := by linarith
    have hzb : y3 * x1 - x3 * y1 = 0 := by linarith
    have hzc : y1 * x2 - x1 * y2 = 0 := by linarith
    rcases ha2 hza with h | ⟨h, h'⟩ <;> rcases hb2 hzb with g | ⟨g, g'⟩ <;>
      rcases hc2 hzc with f | ⟨f, f'⟩ <;> linarith

/-- C10: `orientation` returns 0 if and only if its two endpoints coincide;
for distinct endpoints it returns +1 or -1, so the symbolic-perturbation
fallback never leaves a distinct-point edge with an undecided sign. -/
theorem orientation_zero_iff_coincident (x1 y1 x2 y2 : ℚ) :
    ((orientation x1 y1 x2 y2).1 = 0 ↔ x1 = x2 ∧ y1 = y2) ∧
    (¬(x1 = x2 ∧ y1 = y2) →
      (orientation x1 y1 x2 y2).1 = 1 ∨ (orientation x1 y1 x2 y2).1 = -1) := by
  have hiff : (orientation x1 y1 x2 y2).1 = 0 ↔ x1 = x2 ∧ y1 = y2 := by
    simp only [orientation]
    split_ifs with h1 h2 h3 h4 h5 h6 <;> simp only []
    · constructor
      · intro h; exact absurd h (by decide)
      · rintro ⟨hx, hy⟩
        subst hx; subst hy
        have : y1 * x1 - x1 * y1 = 0 := by ring
        linarith
    · constructor
      · intro h; exact absurd h (by decide)
      · rintro ⟨hx, hy⟩
        subst hx; subst hy
        have : y1 * x1 - x1 * y1 = 0 := by ring
        linarith
    · constructor
      · intro h; exact absurd h (by decide)
      · rintro ⟨hx, hy⟩
        subst hx; subst hy
        exact absurd h3 (lt_irrefl _)
    · constructor
      · intro h; exact absurd h (by decide)
      · rintro ⟨hx, hy⟩
        subst hx; subst hy
        exact absurd h4 (lt_irrefl _)
    · constructor
      · intro h; exact absurd h (by decide)
      · rintro ⟨hx, hy⟩
        subst hx; subst hy
        exact absurd h5 (lt_irrefl _)
    · constructor
      · intro h; exact absurd h (by decide)
      · rintro ⟨hx, hy⟩
        subst hx; subst hy
        exact absurd h6 (lt_irrefl _)
    · push_neg at h3 h4 h5 h6
      simp only [true_iff]
      exact ⟨le_antisymm h5 h6, le_antisymm h4 h3⟩
  refine ⟨hiff, fun hne => ?_⟩
  rcases orientation_sign_trichotomy x1 y1 x2 y2 with h | h | h
  · exact absurd (hiff.mp h) hne
  · exact Or.inl h
  · exact Or.inr h

/-- Witness for C10 on the distinct endpoints (0,0) and (1,1). -/
theorem orientation_zero_iff_coincident_witness :
    ¬((0:ℚ) = 1 ∧ (0:ℚ) = 1) ∧
    ((orientation 0 0 1 1).1 = 0 ↔ (0:ℚ) = 1 ∧ (0:ℚ) = 1) ∧
    ((orientation 0 0 1 1).1 = 1 ∨ (orientation 0 0 1 1).1 = -1) := by
  have h := orientation_zero_iff_coincident 0 0 1 1
  have hne : ¬((0:ℚ) = 1 ∧ (0:ℚ) = 1) := by norm_num
  exact ⟨hne, h.1, h.2 hne⟩

/-- C3: `point_in_triangle_2d` returns `true` exactly when the three
SOS-determined orientation signs of the translated triangle are nonzero and
share the same sign, in which case it writes the three twice-signed areas
divided by their sum as barycentric weights; in every other case it returns
`false` (and never hits the assertion). -/
theorem point_in_triangle_2d_characterization (x0 y0 x1 y1 x2 y2 x3 y3 : ℚ) :
    ((orientation (x2 - x0) (y2 - y0) (x3 - x0) (y3 - y0)).1 ≠ 0 ∧
     (orientation (x3 - x0) (y3 - y0) (x1 - x0) (y1 - y0)).1 =
       (orientation (x2 - x0) (y2 - y0) (x3 - x0) (y3 - y0)).1 ∧
     (orientation (x1 - x0) (y1 - y0) (x2 - x0) (y2 - y0)).1 =
       (orientation (x2 - x0) (y2 - y0) (x3 - x0) (y3 - y0)).1 →
      point_in_triangle_2d x0 y0 x1 y1 x2 y2 x3 y3 =
        PitResult.inside
          ((orientation (x2 - x0) (y2 - y0) (x3 - x0) (y3 - y0)).2 /
            ((orientation (x2 - x0) (y2 - y0) (x3 - x0) (y3 - y0)).2 +
             (orientation (x3 - x0) (y3 - y0) (x1 - x0) (y1 - y0)).2 +
             (orientation (x1 - x0) (y1 - y0) (x2 - x0) (y2 - y0)).2))
          ((orientation (x3 - x0) (y3 - y0) (x1 - x0) (y1 - y0)).2 /
            ((orientation (x2 - x0) (y2 - y0) (x3 - x0) (y3 - y0)).2 +
             (orientation (x3 - x0) (y3 - y0) (x1 - x0) (y1 - y0)).2 +
             (orientation (x1 - x0) (y1 - y0) (x2 - x0) (y2 - y0)).2))
          ((orientation (x1 - x0) (y1 - y0) (x2 - x0) (y2 - y0)).2 /
            ((orientation (x2 - x0) (y2 - y0) (x3 - x0) (y3 - y0)).2 +
             (orientation (x3 - x0) (y3 - y0) (x1 - x0) (y1 - y0)).2 +
             (orientation (x1 - x0) (y1 - y0) (x2 - x0) (y2 - y0)).2))) ∧
    (¬((orientation (x2 - x0) (y2 - y0) (x3 - x0) (y3 - y0)).1 ≠ 0 ∧
       (orientation (x3 - x0) (y3 - y0) (x1 - x0) (y1 - y0)).1 =
         (orientation (x2 - x0) (y2 - y0) (x3 - x0) (y3 - y0)).1 ∧
       (orientation (x1 - x0) (y1 - y0) (x2 - x0) (y2 - y0)).1 =
         (orientation (x2 - x0) (y2 - y0) (x3 - x0) (y3 - y0)).1) →
      point_in_triangle_2d x0 y0 x1 y1 x2 y2 x3 y3 = PitResult.outside) := by
  constructor
  · rintro ⟨ha, hb, hc⟩
    have hsum := sos_sum_ne_zero (x1 - x0) (y1 - y0) (x2 - x0) (y2 - y0)
      (x3 - x0) (y3 - y0) ha hb hc
    simp only [point_in_triangle_2d]
    rw [if_neg ha, if_neg (not_not_intro hb), if_neg (not_not_intro hc), if_neg hsum]
  · intro hnot
    simp only [point_in_triangle_2d]
    by_cases ha : (orientation (x2 - x0) (y2 - y0) (x3 - x0) (y3 - y0)).1 = 0
    · rw [if_pos ha]
    · rw [if_neg ha]
      by_cases hb : (orientation (x3 - x0) (y3 - y0) (x1 - x0) (y1 - y0)).1 =
          (orientation (x2 - x0) (y2 - y0) (x3 - x0) (y3 - y0)).1
      · rw [if_neg (not_not_intro hb)]
        by_cases hc : (orientation (x1 - x0) (y1 - y0) (x2 - x0) (y2 - y0)).1 =
            (orientation (x2 - x0) (y2 - y0) (x3 - x0) (y3 - y0)).1
        · exact absurd ⟨ha, hb, hc⟩ hnot
        · rw [if_pos hc]
      · rw [if_pos hb]

/-- Witness for C3: the origin inside the triangle (1,0)-(-1,1)-(-1,-1)
(all signs -1), and outside for the degenerate collinear triangle
(1,0)-(2,0)-(3,0). -/
theorem point_in_triangle_2d_characterization_witness :
    ((orientation (-1 - 0) (1 - 0) (-1 - 0) (-1 - 0)).1 ≠ 0 ∧
     (orientation (-1 - 0) (-1 - 0) (1 - 0) (0 - 0)).1 =
       (orientation (-1 - 0) (1 - 0) (-1 - 0) (-1 - 0)).1 ∧
     (orientation (1 - 0) (0 - 0) (-1 - 0) (1 - 0)).1 =
       (orientation (-1 - 0) (1 - 0) (-1 - 0) (-1 - 0)).1) ∧
    point_in_triangle_2d 0 0 1 0 (-1) 1 (-1) (-1) =
      PitResult.inside
        ((orientation (-1 - 0) (1 - 0) (-1 - 0) (-1 - 0)).2 /
          ((orientation (-1 - 0) (1 - 0) (-1 - 0) (-1 - 0)).2 +
           (orientation (-1 - 0) (-1 - 0) (1 - 0) (0 - 0)).2 +
           (orientation (1 - 0) (0 - 0) (-1 - 0) (1 - 0)).2))
        ((orientation (-1 - 0) (-1 - 0) (1 - 0) (0 - 0)).2 /
          ((orientation (-1 - 0) (1 - 0) (-1 - 0) (-1 - 0)).2 +
           (orientation (-1 - 0) (-1 - 0) (1 - 0) (0 - 0)).2 +
           (orientation (1 - 0) (0 - 0) (-1 - 0) (1 - 0)).2))
        ((orientation (1 - 0) (0 - 0) (-1 - 0) (1 - 0)).2 /
          ((orientation (-1 - 0) (1 - 0) (-1 - 0) (-1 - 0)).2 +
           (orientation (-1 - 0) (-1 - 0) (1 - 0) (0 - 0)).2 +
           (orientation (1 - 0) (0 - 0) (-1 - 0) (1 - 0)).2)) ∧
    ¬((orientation (2 - 0) (0 - 0) (3 - 0) (0 - 0)).1 ≠ 0 ∧
      (orientation (3 - 0) (0 - 0) (1 - 0) (0 - 0)).1 =
        (orientation (2 - 0) (0 - 0) (3 - 0) (0 - 0)).1 ∧
      (orientation (1 - 0) (0 - 0) (2 - 0) (0 - 0)).1 =
        (orientation (2 - 0) (0 - 0) (3 - 0) (0 - 0)).1) ∧
    point_in_triangle_2d 0 0 1 0 2 0 3 0 = PitResult.outside := by
  have hcond : (orientation ((-1:ℚ) - 0) (1 - 0) (-1 - 0) (-1 - 0)).1 ≠ 0 ∧
      (orientation ((-1:ℚ) - 0) (-1 - 0) (1 - 0) (0 - 0)).1 =
        (orientation ((-1:ℚ) - 0) (1 - 0) (-1 - 0) (-1 - 0)).1 ∧
      (orientation ((1:ℚ) - 0) (0 - 0) (-1 - 0) (1 - 0)).1 =
        (orientation ((-1:ℚ) - 0) (1 - 0) (-1 - 0) (-1 - 0)).1 := by
    norm_num [orientation]
  have hcond2 : ¬((orientation ((2:ℚ) - 0) (0 - 0) (3 - 0) (0 - 0)).1 ≠ 0 ∧
      (orientation ((3:ℚ) - 0) (0 - 0) (1 - 0) (0 - 0)).1 =
        (orientation ((2:ℚ) - 0) (0 - 0) (3 - 0) (0 - 0)).1 ∧
      (orientation ((1:ℚ) - 0) (0 - 0) (2 - 0) (0 - 0)).1 =
        (orientation ((2:ℚ) - 0) (0 - 0) (3 - 0) (0 - 0)).1) := by
    norm_num [orientation]
  exact ⟨hcond,
    (point_in_triangle_2d_characterization 0 0 1 0 (-1) 1 (-1) (-1)).1 hcond,
    hcond2,
    (point_in_triangle_2d_characterization 0 0 1 0 2 0 3 0).2 hcond2⟩

/-- C4: the assertion `sum != 0` in `point_in_triangle_2d` never fires:
whenever the three SOS-determined orientation signs are all nonzero and
equal, the sum of the three twice-signed areas is nonzero, and for no input
does `point_in_triangle_2d` reach the `assertFailed` outcome. -/
theorem point_in_triangle_2d_assert_never_fires :
    (∀ x1 y1 x2 y2 x3 y3 : ℚ,
      (orientation x2 y2 x3 y3).1 ≠ 0 →
      (orientation x3 y3 x1 y1).1 = (orientation x2 y2 x3 y3).1 →
      (orientation x1 y1 x2 y2).1 = (orientation x2 y2 x3 y3).1 →
      (orientation x2 y2 x3 y3).2 + (orientation x3 y3 x1 y1).2 +
        (orientation x1 y1 x2 y2).2 ≠ 0) ∧
    (∀ x0 y0 x1 y1 x2 y2 x3 y3 : ℚ,
      point_in_triangle_2d x0 y0 x1 y1 x2 y2 x3 y3 ≠ PitResult.assertFailed) := by
  constructor
  · intro x1 y1 x2 y2 x3 y3 ha hb hc
    exact sos_sum_ne_zero x1 y1 x2 y2 x3 y3 ha hb hc
  · intro x0 y0 x1 y1 x2 y2 x3 y3
    simp only [point_in_triangle_2d]
    split_ifs with h1 h2 h3 h4
    · simp
    · simp
    · simp
    · exact absurd h4 (sos_sum_ne_zero (x1 - x0) (y1 - y0) (x2 - x0) (y2 - y0)
        (x3 - x0) (y3 - y0) h1 (not_not.mp h2) (not_not.mp h3))
    · simp

/-- Witness for C4 on the triangle (1,0)-(-1,1)-(-1,-1) around the origin. -/
theorem point_in_triangle_2d_assert_never_fires_witness :
    ((orientation ((-1:ℚ)) 1 (-1) (-1)).1 ≠ 0 ∧
     (orientation ((-1:ℚ)) (-1) 1 0).1 = (orientation ((-1:ℚ)) 1 (-1) (-1)).1 ∧
     (orientation ((1:ℚ)) 0 (-1) 1).1 = (orientation ((-1:ℚ)) 1 (-1) (-1)).1) ∧
    (orientation ((-1:ℚ)) 1 (-1) (-1)).2 + (orientation ((-1:ℚ)) (-1) 1 0).2 +
      (orientation ((1:ℚ)) 0 (-1) 1).2 ≠ 0 ∧
    point_in_triangle_2d 0 0 1 0 (-1) 1 (-1) (-1) ≠ PitResult.assertFailed := by
  have h1 : (orientation ((-1:ℚ)) 1 (-1) (-1)).1 ≠ 0 := by norm_num [orientation]
  have h2 : (orientation ((-1:ℚ)) (-1) 1 0).1 = (orientation ((-1:ℚ)) 1 (-1) (-1)).1 := by
    norm_num [orientation]
  have h3 : (orientation ((1:ℚ)) 0 (-1) 1).1 = (orientation ((-1:ℚ)) 1 (-1) (-1)).1 := by
    norm_num [orientation]
  exact ⟨⟨h1, h2, h3⟩,
    point_in_triangle_2d_assert_never_fires.1 1 0 (-1) 1 (-1) (-1) h1 h2 h3,
    point_in_triangle_2d_assert_never_fires.2 0 0 1 0 (-1) 1 (-1) (-1)⟩

/-! ### Sign computation (`compute_sign`) -/

/-- `std::round` on the values fed to it by `compute_sign`: round to nearest,
halfway cases away from zero.  The subsequent `int(...)` cast is the identity
because the value is already integral. -/
def cround (q : ℚ) : ℤ := if 0 ≤ q then ⌊q + 1 / 2⌋ else -⌊-q + 1 / 2⌋

/-- One voxel flip `voxels.at(idx) = T(1) - voxels.at(idx)` on
`T = unsigned char`: the subtraction is performed in `int` and converted back
to `unsigned char`, i.e. reduced mod 256.  On the occupancy values 0 and 1
that occur this swaps 0 and 1. -/
def cflip (v : ℕ) : ℕ := (257 - v % 256) % 256

/-- The innermost loop of `compute_sign`:
`for (z = z1; z < z2; ++z) { geo_assert(...); flip voxel (x, y, z); }`.
The occupancy buffer is the map from linear voxel index to stored value;
`none` means the assertion `z >= 0 && z < size[2]` fired. -/
def flip_loop (size : Vec3i) (x y z1 z2 : ℤ) (v : ℤ → ℕ) : Option (ℤ → ℕ) :=
  if z1 < z2 then
    if 0 ≤ z1 ∧ z1 < size.z then
      flip_loop size x y (z1 + 1) z2
        (Function.update v (index_from_index3 ⟨x, y, z1⟩ size)
          (cflip (v (index_from_index3 ⟨x, y, z1⟩ size))))
    else none
  else some v
termination_by (z2 - z1).toNat
decreasing_by omega

/-- The crossing-pair loop of `compute_sign`:
`for (k = 1; k < inter.size(); k += 2)`, where each of `inter[k-1]`,
`inter[k]` is converted to a z-index by `round((z - origin.z)/spacing)`,
clamped to `[0, size.z]`, and the half-open index range is flipped. -/
def pair_loop (size : Vec3i) (originz spacing : ℚ) (x y : ℤ)
    (inter : List ℚ) (k : ℕ) (v : ℤ → ℕ) : Option (ℤ → ℕ) :=
  if h : k < inter.length then
    (flip_loop size x y
        (max 0 (min (cround ((inter.get ⟨k - 1, Nat.lt_of_le_of_lt (Nat.sub_le k 1) h⟩
            - originz) / spacing)) size.z))
        (max 0 (min (cround ((inter.get ⟨k, h⟩ - originz) / spacing)) size.z))
        v).bind
      (fun v2 => pair_loop size originz spacing x y inter (k + 2) v2)
  else some v
termination_by inter.length - k
decreasing_by omega

/-- One `(x, y)` column of `compute_sign`: collect the crossing heights
`inter`, sort them ascending (`std::sort`), and consume them with the pair
loop starting at `k = 1`. -/
def compute_sign_column (size : Vec3i) (originz spacing : ℚ) (x y : ℤ)
    (inter : List ℚ) (v : ℤ → ℕ) : Option (ℤ → ℕ) :=
  pair_loop size originz spacing x y
    (inter.mergeSort (fun a b => decide (a ≤ b))) 1 v

/-- The claim's z-index conversion: `round((z - origin.z)/spacing)` clamped
to `[0, nz]`. -/
def z_index (size : Vec3i) (originz spacing : ℚ) (h : ℚ) : ℤ :=
  max 0 (min (cround ((h - originz) / spacing)) size.z)

/-- Specification-side flip of one crossing pair: every voxel of column
`(x, y)` whose z-index lies in `[z1, z2)` has its occupancy flipped; all
other entries of the buffer are unchanged. -/
def spec_flip_range (size : Vec3i) (x y z1 z2 : ℤ) (v : ℤ → ℕ) : ℤ → ℕ :=
  fun i =>
    if ∃ z ∈ Finset.Ico z1 z2, i = index_from_index3 ⟨x, y, z⟩ size
    then cflip (v i) else v i

/-- Specification-side consumption of the sorted crossing list in adjacent
pairs `(k-1, k)` for odd `k`; a trailing unpaired crossing is ignored. -/
def spec_consume_pairs (size : Vec3i) (originz spacing : ℚ) (x y : ℤ) :
    List ℚ → (ℤ → ℕ) → (ℤ → ℕ)
  | za :: zb :: rest, v =>
      spec_consume_pairs size originz spacing x y rest
        (spec_flip_range size x y (z_index size originz spacing za)
          (z_index size originz spacing zb) v)
  | _, v => v

/-- In a fixed column, the linear index is injective in the z-coordinate. -/
theorem index_inj_z (size : Vec3i) (x y : ℤ)
    (hx : 0 < size.x) (hy : 0 < size.y) {z z' : ℤ}
    (h : index_from_index3 ⟨x, y, z⟩ size = index_from_index3 ⟨x, y, z'⟩ size) :
    z = z' := by
  simp only [index_from_index3] at h
  have h1 : (z * size.y + y) * size.x = (z' * size.y + y) * size.x := by linarith
  have h2 : z * size.y + y = z' * size.y + y :=
    mul_right_cancel₀ (by omega) h1
  have h3 : z * size.y = z' * size.y := by linarith
  exact mul_right_cancel₀ (by omega) h3

/-- `flip_loop` with bounds satisfying the clamp invariant never hits the
assertion. -/
theorem flip_loop_isSome (size : Vec3i) (x y : ℤ) :
    ∀ (n : ℕ) (z1 z2 : ℤ), (z2 - z1).toNat = n →
      (z1 < z2 → 0 ≤ z1 ∧ z2 ≤ size.z) → ∀ v : ℤ → ℕ,
      (flip_loop size x y z1 z2 v).isSome := by
  intro n
  induction n with
  | zero =>
    intro z1 z2 hn _ v
    rw [flip_loop, if_neg (by omega)]
    rfl
  | succ n ih =>
    intro z1 z2 hn hb v
    have hlt : z1 < z2 := by omega
    obtain ⟨h0, h2⟩ := hb hlt
    rw [flip_loop, if_pos hlt, if_pos ⟨h0, by omega⟩]
    exact ih (z1 + 1) z2 (by omega) (fun _ => ⟨by omega, h2⟩) _

/-- `flip_loop` flips exactly the voxels of the column whose z-index lies in
`[z1, z2)`. -/
theorem flip_loop_eq (size : Vec3i) (x y : ℤ)
    (hx : 0 < size.x) (hy : 0 < size.y) :
    ∀ (n : ℕ) (z1 z2 : ℤ), (z2 - z1).toNat = n →
      (z1 < z2 → 0 ≤ z1 ∧ z2 ≤ size.z) → ∀ v : ℤ → ℕ,
      flip_loop size x y z1 z2 v = some (spec_flip_range size x y z1 z2 v) := by
  intro n
  induction n with
  | zero =>
    intro z1 z2 hn _ v
    rw [flip_loop, if_neg (by omega)]
    have he : Finset.Ico z1 z2 = ∅ := Finset.Ico_eq_empty (by omega)
    congr 1
    funext i
    simp [spec_flip_range, he]
  | succ n ih =>
    intro z1 z2 hn hb v
    have hlt : z1 < z2 := by omega
    obtain ⟨h0, h2⟩ := hb hlt
    rw [flip_loop, if_pos hlt, if_pos ⟨h0, by omega⟩,
      ih (z1 + 1) z2 (by omega) (fun _ => ⟨by omega, h2⟩) _]
    congr 1
    funext i
    by_cases hi : i = index_from_index3 ⟨x, y, z1⟩ size
    · subst hi
      have hmem : ∃ z ∈ Finset.Ico z1 z2,
          index_from_index3 ⟨x, y, z1⟩ size = index_from_index3 ⟨x, y, z⟩ size :=
        ⟨z1, Finset.mem_Ico.mpr ⟨le_refl _, hlt⟩, rfl⟩
      have hnotmem : ¬ ∃ z ∈ Finset.Ico (z1 + 1) z2,
          index_from_index3 ⟨x, y, z1⟩ size = index_from_index3 ⟨x, y, z⟩ size := by
        rintro ⟨z, hz, hzi⟩
        have hzz := index_inj_z size x y hx hy hzi
        rw [Finset.mem_Ico] at hz
        omega
      simp only [spec_flip_range]
      rw [if_neg hnotmem, if_pos hmem, Function.update_same]
    · have hiff : (∃ z ∈ Finset.Ico (z1 + 1) z2, i = index_from_index3 ⟨x, y, z⟩ size) ↔
          (∃ z ∈ Finset.Ico z1 z2, i = index_from_index3 ⟨x, y, z⟩ size) := by
        constructor
        · rintro ⟨z, hz, rfl⟩
          rw [Finset.mem_Ico] at hz
          exact ⟨z, Finset.mem_Ico.mpr ⟨by omega, hz.2⟩, rfl⟩
        · rintro ⟨z, hz, rfl⟩
          rw [Finset.mem_Ico] at hz
          refine ⟨z, Finset.mem_Ico.mpr ⟨?_, hz.2⟩, rfl⟩
          rcases eq_or_lt_of_le hz.1 with h | h
          · exact absurd (by rw [h]) hi
          · omega
      simp only [spec_flip_range]
      rw [Function.update_noteq hi]
      by_cases hc : ∃ z ∈ Finset.Ico z1 z2, i = index_from_index3 ⟨x, y, z⟩ size
      · rw [if_pos (hiff.mpr hc), if_pos hc]
      · rw [if_neg (fun h => hc (hiff.mp h)), if_neg hc]

/-- The two clamped z-indices of a consumed pair satisfy the flip-loop
invariant. -/
theorem clamp_invariant (size : Vec3i) (a b : ℤ) :
    max 0 (min a size.z) < max 0 (min b size.z) →
    0 ≤ max 0 (min a size.z) ∧ max 0 (min b size.z) ≤ size.z := by
  omega

/-- `pair_loop` never returns `none`: the flip-loop assertion is
unreachable for any crossing heights. -/
theorem pair_loop_isSome (size : Vec3i) (oz sp : ℚ) (x y : ℤ) (l : List ℚ) :
    ∀ (m : ℕ) (k : ℕ), l.length - k = m → ∀ v : ℤ → ℕ,
      (pair_loop size oz sp x y l k v).isSome := by
  intro m
  induction m using Nat.strong_induction_on with
  | _ m ih =>
    intro k hm v
    by_cases h : k < l.length
    · rw [pair_loop, dif_pos h]
      set z1 := max 0 (min (cround ((l.get ⟨k - 1, Nat.lt_of_le_of_lt (Nat.sub_le k 1) h⟩
        - oz) / sp)) size.z) with hz1
      set z2 := max 0 (min (cround ((l.get ⟨k, h⟩ - oz) / sp)) size.z) with hz2
      have hfl := flip_loop_isSome size x y (z2 - z1).toNat z1 z2 rfl
        (fun hlt => clamp_invariant size _ _ hlt) v
      obtain ⟨w, hw⟩ := Option.isSome_iff_exists.mp hfl
      rw [hw, Option.some_bind]
      exact ih (l.length - (k + 2)) (by omega) (k + 2) rfl w
    · rw [pair_loop, dif_neg h]
      rfl

/-- `pair_loop` started at odd index `2*j + 1` computes exactly the
specification-side pair consumption of the remaining suffix. -/
theorem pair_loop_eq (size : Vec3i) (oz sp : ℚ) (x y : ℤ)
    (hx : 0 < size.x) (hy : 0 < size.y) (l : List ℚ) :
    ∀ (m : ℕ) (j : ℕ), l.length - 2 * j = m → ∀ v : ℤ → ℕ,
      pair_loop size oz sp x y l (2 * j + 1) v =
        some (spec_consume_pairs size oz sp x y (l.drop (2 * j)) v) := by
  intro m
  induction m using Nat.strong_induction_on with
  | _ m ih =>
    intro j hm v
    by_cases h : 2 * j + 1 < l.length
    · have h1 : 2 * j < l.length := by omega
      rw [pair_loop, dif_pos h]
      simp only [List.get_eq_getElem, Nat.add_sub_cancel]
      rw [flip_loop_eq size x y hx hy _ _ _ rfl
        (fun hlt => clamp_invariant size _ _ hlt) v, Option.some_bind]
      have hk : 2 * j + 1 + 2 = 2 * (j + 1) + 1 := by ring
      rw [hk, ih (l.length - 2 * (j + 1)) (by omega) (j + 1) rfl _]
      rw [List.drop_eq_getElem_cons h1, List.drop_eq_getElem_cons h]
      simp only [spec_consume_pairs, z_index]
      have hj2 : 2 * (j + 1) = 2 * j + 1 + 1 := by ring
      rw [hj2]
    · rw [pair_loop, dif_neg h]
      have hlen : (l.drop (2 * j)).length ≤ 1 := by
        rw [List.length_drop]
        omega
      cases hd : l.drop (2 * j) with
      | nil => simp [spec_consume_pairs]
      | cons a t =>
        cases t with
        | nil => simp [spec_consume_pairs]
        | cons b u =>
          rw [hd] at hlen
          simp at hlen

/-- Consuming an odd-length crossing list flips the same voxels as consuming
it without its last element: the trailing unpaired crossing is ignored. -/
theorem spec_consume_pairs_dropLast (size : Vec3i) (oz sp : ℚ) (x y : ℤ) :
    ∀ (l : List ℚ) (w : ℤ → ℕ), Odd l.length →
      spec_consume_pairs size oz sp x y l w =
        spec_consume_pairs size oz sp x y l.dropLast w
  | [], _, h => by simp at h
  | [a], _, _ => by simp [spec_consume_pairs]
  | a :: b :: rest, w, h => by
    have hodd : Odd rest.length := by
      rcases h with ⟨k, hk⟩
      simp only [List.length_cons] at hk
      exact ⟨k - 1, by omega⟩
    cases rest with
    | nil =>
      rcases hodd with ⟨k, hk⟩
      simp at hk
    | cons c t =>
      rw [List.dropLast_cons₂, List.dropLast_cons₂]
      simp only [spec_consume_pairs]
      exact spec_consume_pairs_dropLast size oz sp x y (c :: t) _ hodd

/-- C1: for every grid column (x, y), the sorted crossing heights are
consumed in adjacent pairs; each pair is converted to clamped z-indices and
every voxel of the column with z-index in `[z1, z2)` has its occupancy
flipped (0 ↔ 1, not set); a trailing unpaired crossing causes no flips, an
empty crossing list leaves the column unchanged, and a pair with `z1 = z2`
causes no flips. -/
theorem compute_sign_column_pair_consumption (size : Vec3i) (oz sp : ℚ)
    (x y : ℤ) (inter : List ℚ) (v : ℤ → ℕ)
    (hx : 0 ≤ x ∧ x < size.x) (hy : 0 ≤ y ∧ y < size.y) :
    compute_sign_column size oz sp x y inter v =
      some (spec_consume_pairs size oz sp x y
        (inter.mergeSort (fun a b => decide (a ≤ b))) v) ∧
    List.Sorted (· ≤ ·) (inter.mergeSort (fun a b => decide (a ≤ b))) ∧
    (inter.mergeSort (fun a b => decide (a ≤ b))).Perm inter ∧
    (∀ (z1 z2 : ℤ) (w : ℤ → ℕ) (z : ℤ), 0 ≤ z → z < size.z →
      spec_flip_range size x y z1 z2 w (index_from_index3 ⟨x, y, z⟩ size) =
        if z1 ≤ z ∧ z < z2 then
          cflip (w (index_from_index3 ⟨x, y, z⟩ size))
        else w (index_from_index3 ⟨x, y, z⟩ size)) ∧
    cflip 0 = 1 ∧ cflip 1 = 0 ∧
    compute_sign_column size oz sp x y [] v = some v ∧
    (∀ (l : List ℚ) (w : ℤ → ℕ), Odd l.length →
      spec_consume_pairs size oz sp x y l w =
        spec_consume_pairs size oz sp x y l.dropLast w) ∧
    (∀ (z1 : ℤ) (w : ℤ → ℕ), spec_flip_range size x y z1 z1 w = w) := by
  have hx' : 0 < size.x := by omega
  have hy' : 0 < size.y := by omega
  refine ⟨?_, ?_, List.mergeSort_perm inter _, ?_, by decide, by decide, ?_,
    spec_consume_pairs_dropLast size oz sp x y, ?_⟩
  · have h1 := pair_loop_eq size oz sp x y hx' hy'
      (inter.mergeSort (fun a b => decide (a ≤ b)))
      ((inter.mergeSort (fun a b => decide (a ≤ b))).length) 0 (by omega) v
    simpa [compute_sign_column] using h1
  · have htrans : ∀ a b c : ℚ, (decide (a ≤ b)) = true → (decide (b ≤ c)) = true →
        (decide (a ≤ c)) = true := by
      intro a b c hab hbc
      simp only [decide_eq_true_eq] at *
      linarith
    have htotal : ∀ a b : ℚ, ((decide (a ≤ b)) || (decide (b ≤ a))) = true := by
      intro a b
      simpa [Bool.or_eq_true, decide_eq_true_eq] using le_total a b
    have h := @List.sorted_mergeSort ℚ (fun a b => decide (a ≤ b)) htrans htotal inter
    exact h.imp (fun hab => by simpa using hab)
  · intro z1 z2 w z hz0 hz1
    by_cases hzr : z1 ≤ z ∧ z < z2
    · rw [spec_flip_range, if_pos ⟨z, Finset.mem_Ico.mpr hzr, rfl⟩, if_pos hzr]
    · rw [spec_flip_range, if_neg ?_, if_neg hzr]
      rintro ⟨z', hz', hzi⟩
      have hzz := index_inj_z size x y hx' hy' hzi
      rw [Finset.mem_Ico] at hz'
      exact hzr ⟨by omega, by omega⟩
  · have h1 := pair_loop_eq size oz sp x y hx' hy'
      (([] : List ℚ).mergeSort (fun a b => decide (a ≤ b)))
      ((([] : List ℚ).mergeSort (fun a b => decide (a ≤ b))).length) 0 (by omega) v
    simpa [compute_sign_column, spec_consume_pairs] using h1
  · intro z1 w
    funext i
    have he : Finset.Ico z1 z1 = ∅ := Finset.Ico_eq_empty (by omega)
    simp [spec_flip_range, he]

/-- Witness for C1: the column (0,0) of a 1×1×4 grid with origin z = 0,
spacing 1, and crossings at heights 1/2 and 5/2. -/
theorem compute_sign_column_pair_consumption_witness :
    ((0:ℤ) ≤ 0 ∧ (0:ℤ) < 1) ∧ ((0:ℤ) ≤ 0 ∧ (0:ℤ) < 1) ∧
    compute_sign_column ⟨1, 1, 4⟩ 0 1 0 0 [1/2, 5/2] (fun _ => 0) =
      some (spec_consume_pairs ⟨1, 1, 4⟩ 0 1 0 0
        ([1/2, 5/2].mergeSort (fun a b => decide (a ≤ b))) (fun _ => 0)) :=
  ⟨⟨le_refl 0, by decide⟩, ⟨le_refl 0, by decide⟩,
    (compute_sign_column_pair_consumption ⟨1, 1, 4⟩ 0 1 0 0 [1/2, 5/2]
      (fun _ => 0) ⟨le_refl 0, by decide⟩ ⟨le_refl 0, by decide⟩).1⟩

/-- C5: in the flip loop of `compute_sign`, every visited voxel z-index
satisfies `0 ≤ z < nz` — the in-loop assertion never fires, for any crossing
heights, because both pair endpoints are clamped into `[0, nz]` before the
loop iterates over `[z1, z2)`. -/
theorem compute_sign_column_assertion_never_fires (size : Vec3i)
    (oz sp : ℚ) (x y : ℤ) (inter : List ℚ) (v : ℤ → ℕ) :
    (compute_sign_column size oz sp x y inter v).isSome := by
  unfold compute_sign_column
  exact pair_loop_isSome size oz sp x y _ _ 1 rfl v

/-! ### Raw volume writer (`paraview_dump`) -/

/-- The text header `basename + ".mhd"` written by `paraview_dump`, exactly
as the code streams it. -/
def paraview_mhd (basename : String) (size : Vec3i) : String :=
  "ObjectType = Image\nNDims = 3\n" ++
    "DimSize = " ++ toString size.x ++ " " ++ toString size.y ++ " " ++
    toString size.z ++ "\n" ++
    "ElementType = MET_CHAR\nElementDataFile = " ++ basename ++ ".raw\n"

/-- The binary file `basename + ".raw"` written by `paraview_dump`:
`num_voxels() * sizeof(num_t)` bytes starting at the grid buffer, with
`sizeof(num_t) = 1` since `num_t` is `unsigned char`. -/
def paraview_raw (size : Vec3i) (data : List ℕ) : List ℕ :=
  data.take ((size.x * size.y * size.z).toNat * 1)

/-- C6 evaluation: on a 2×1×1 grid the header has `DimSize = 2 1 1`, 3
dimensions and the companion raw filename, but its element type line reads
`MET_CHAR` — MetaIO's signed single byte — not the unsigned single byte
(`MET_UCHAR`) matching the `unsigned char` buffer; the raw file is the
buffer itself, `nx*ny*nz` bytes in linear order. -/
theorem paraview_dump_element_type_evaluation :
    paraview_mhd "output" ⟨2, 1, 1⟩ =
      "ObjectType = Image\nNDims = 3\nDimSize = 2 1 1\nElementType = MET_CHAR\nElementDataFile = output.raw\n" ∧
    paraview_mhd "output" ⟨2, 1, 1⟩ ≠
      "ObjectType = Image\nNDims = 3\nDimSize = 2 1 1\nElementType = MET_UCHAR\nElementDataFile = output.raw\n" ∧
    paraview_raw ⟨2, 1, 1⟩ [1, 0] = [1, 0] ∧
    (paraview_raw ⟨2, 1, 1⟩ [1, 0]).length = 2 := by
  refine ⟨by rfl, ?_, by rfl, by rfl⟩
  intro h
  rw [show paraview_mhd "output" ⟨2, 1, 1⟩ =
    "ObjectType = Image\nNDims = 3\nDimSize = 2 1 1\nElementType = MET_CHAR\nElementDataFile = output.raw\n" from rfl] at h
  exact absurd h (by decide)

/-! ### Boundary mesh extraction (`triangle_mesh_dump`): facet emission -/

/-- The 8 cell-corner offsets of `triangle_mesh_dump`, in the order
`corners[0] .. corners[7]` of the code. -/
def corner_offset : Fin 8 → Vec3i
  | 0 => ⟨0, 0, 0⟩
  | 1 => ⟨1, 0, 0⟩
  | 2 => ⟨1, 1, 0⟩
  | 3 => ⟨0, 1, 0⟩
  | 4 => ⟨0, 0, 1⟩
  | 5 => ⟨1, 0, 1⟩
  | 6 => ⟨1, 1, 1⟩
  | 7 => ⟨0, 1, 1⟩

/-- `check_facet` from `triangle_mesh_dump`: compute the neighbor voxel of
`pos` along (`axis`, `delta`); if it is out of grid bounds or has occupancy
0, emit the two triangle strips `{v1, v2, v3}` and `{v3, v2, v4}` as
node-lattice corner indices, else emit nothing. -/
def check_facet (cell_size : Vec3i) (occ : ℤ → ℕ) (pos : Vec3i)
    (corners : Fin 8 → ℤ) (axis : Fin 3) (delta : ℤ)
    (v1 v2 v3 v4 : Fin 8) : List ℤ :=
  let neigh := pos.setNth axis (pos.nth axis + delta)
  let neigh_is_empty : Bool :=
    if neigh.nth axis < 0 ∨ cell_size.nth axis ≤ neigh.nth axis then true
    else decide (occ (index_from_index3 neigh cell_size) = 0)
  if neigh_is_empty then
    [corners v1, corners v2, corners v3, corners v3, corners v2, corners v4]
  else []

/-- The per-voxel body of the facet loop of `triangle_mesh_dump`: skip empty
voxels, compute the 8 node-lattice corner indices, and run the six
`check_facet` calls in the order of the code. -/
def voxel_facets (cell_size : Vec3i) (occ : ℤ → ℕ) (idx : ℤ) : List ℤ :=
  let pos := index3_from_index idx cell_size
  if occ idx = 0 then []
  else
    let corners : Fin 8 → ℤ :=
      fun i => index_from_index3 (pos + corner_offset i) (cell_size + ⟨1, 1, 1⟩)
    check_facet cell_size occ pos corners 0 (-1) 0 4 3 7 ++
    check_facet cell_size occ pos corners 0 1 2 6 1 5 ++
    check_facet cell_size occ pos corners 1 (-1) 1 5 0 4 ++
    check_facet cell_size occ pos corners 1 1 3 7 2 6 ++
    check_facet cell_size occ pos corners 2 (-1) 0 1 3 2 ++
    check_facet cell_size occ pos corners 2 1 4 5 7 6

/-- The raw triangle list of `triangle_mesh_dump`: all voxel contributions
in linear index order, concatenated. -/
def triangle_list (cell_size : Vec3i) (occ : ℤ → ℕ) : List ℤ :=
  (List.range (cell_size.x * cell_size.y * cell_size.z).toNat).flatMap
    (fun i => voxel_facets cell_size occ (Int.ofNat i))

/-- The six axis-aligned neighbor directions in the order the code checks
them, as displacement vectors. -/
def dir_vec : Fin 6 → Vec3i
  | 0 => ⟨-1, 0, 0⟩
  | 1 => ⟨1, 0, 0⟩
  | 2 => ⟨0, -1, 0⟩
  | 3 => ⟨0, 1, 0⟩
  | 4 => ⟨0, 0, -1⟩
  | 5 => ⟨0, 0, 1⟩

/-- The axis along which each of the six directions moves. -/
def dir_axis : Fin 6 → Fin 3
  | 0 => 0
  | 1 => 0
  | 2 => 1
  | 3 => 1
  | 4 => 2
  | 5 => 2

/-- The four node-lattice corner offsets of the quad face shared with the
neighbor in direction `d`, in the code's emission order `(v1, v2, v3, v4)`. -/
def face_corners : Fin 6 → Vec3i × Vec3i × Vec3i × Vec3i
  | 0 => (⟨0, 0, 0⟩, ⟨0, 0, 1⟩, ⟨0, 1, 0⟩, ⟨0, 1, 1⟩)
  | 1 => (⟨1, 1, 0⟩, ⟨1, 1, 1⟩, ⟨1, 0, 0⟩, ⟨1, 0, 1⟩)
  | 2 => (⟨1, 0, 0⟩, ⟨1, 0, 1⟩, ⟨0, 0, 0⟩, ⟨0, 0, 1⟩)
  | 3 => (⟨0, 1, 0⟩, ⟨0, 1, 1⟩, ⟨1, 1, 0⟩, ⟨1, 1, 1⟩)
  | 4 => (⟨0, 0, 0⟩, ⟨1, 0, 0⟩, ⟨0, 1, 0⟩, ⟨1, 1, 0⟩)
  | 5 => (⟨0, 0, 1⟩, ⟨1, 0, 1⟩, ⟨0, 1, 1⟩, ⟨1, 1, 1⟩)

/-- Specification-side emptiness of the neighbor of `pos` in direction `d`:
out of grid bounds along that axis, or occupancy 0. -/
def spec_neighbor_empty (cell_size : Vec3i) (occ : ℤ → ℕ)
    (pos : Vec3i) (d : Fin 6) : Prop :=
  (pos + dir_vec d).nth (dir_axis d) < 0 ∨
    cell_size.nth (dir_axis d) ≤ (pos + dir_vec d).nth (dir_axis d) ∨
    occ (index_from_index3 (pos + dir_vec d) cell_size) = 0

instance (cell_size : Vec3i) (occ : ℤ → ℕ) (pos : Vec3i) (d : Fin 6) :
    Decidable (spec_neighbor_empty cell_size occ pos d) := by
  unfold spec_neighbor_empty
  exact inferInstance

/-- Specification-side: the two triangles of the quad face that the cell at
`pos` shares with its neighbor in direction `d`. -/
def spec_face_triangles (cell_size : Vec3i) (pos : Vec3i) (d : Fin 6) : List ℤ :=
  [index_from_index3 (pos + (face_corners d).1) (cell_size + ⟨1, 1, 1⟩),
   index_from_index3 (pos + (face_corners d).2.1) (cell_size + ⟨1, 1, 1⟩),
   index_from_index3 (pos + (face_corners d).2.2.1) (cell_size + ⟨1, 1, 1⟩),
   index_from_index3 (pos + (face_corners d).2.2.1) (cell_size + ⟨1, 1, 1⟩),
   index_from_index3 (pos + (face_corners d).2.1) (cell_size + ⟨1, 1, 1⟩),
   index_from_index3 (pos + (face_corners d).2.2.2) (cell_size + ⟨1, 1, 1⟩)]

theorem setNth_dir (pos : Vec3i) (d : Fin 6) :
    pos.setNth (dir_axis d) (pos.nth (dir_axis d) + (dir_vec d).nth (dir_axis d)) =
      pos + dir_vec d := by
  obtain ⟨px, py, pz⟩ := pos
  fin_cases d <;>
    simp [Vec3i.setNth, Vec3i.nth, dir_axis, dir_vec, Vec3i.add_def]

/-- One `check_facet` call, with corner pattern matching direction `d`,
emits exactly the claim's conditional shared-face triangles. -/
theorem check_facet_eq_spec (cell_size : Vec3i) (occ : ℤ → ℕ) (pos : Vec3i)
    (d : Fin 6) (axis : Fin 3) (delta : ℤ) (v1 v2 v3 v4 : Fin 8)
    (haxis : dir_axis d = axis)
    (hneigh : pos.setNth axis (pos.nth axis + delta) = pos + dir_vec d)
    (hc1 : corner_offset v1 = (face_corners d).1)
    (hc2 : corner_offset v2 = (face_corners d).2.1)
    (hc3 : corner_offset v3 = (face_corners d).2.2.1)
    (hc4 : corner_offset v4 = (face_corners d).2.2.2) :
    check_facet cell_size occ pos
        (fun i => index_from_index3 (pos + corner_offset i) (cell_size + ⟨1, 1, 1⟩))
        axis delta v1 v2 v3 v4 =
      if spec_neighbor_empty cell_size occ pos d
      then spec_face_triangles cell_size pos d else [] := by
  subst haxis
  simp only [check_facet, hneigh]
  by_cases hA : (pos + dir_vec d).nth (dir_axis d) < 0 ∨
      cell_size.nth (dir_axis d) ≤ (pos + dir_vec d).nth (dir_axis d)
  · rw [if_pos hA]
    have hspec : spec_neighbor_empty cell_size occ pos d := by
      rcases hA with h | h
      · exact Or.inl h
      · exact Or.inr (Or.inl h)
    simp only [if_true]
    rw [if_pos hspec]
    simp only [spec_face_triangles, hc1, hc2, hc3, hc4]
  · rw [if_neg hA]
    by_cases hC : occ (index_from_index3 (pos + dir_vec d) cell_size) = 0
    · rw [if_pos (by simpa using hC)]
      have hspec : spec_neighbor_empty cell_size occ pos d := Or.inr (Or.inr hC)
      rw [if_pos hspec]
      simp only [spec_face_triangles, hc1, hc2, hc3, hc4]
    · rw [if_neg (by simpa using hC)]
      have hspec : ¬ spec_neighbor_empty cell_size occ pos d := by
        rintro (h | h | h)
        · exact hA (Or.inl h)
        · exact hA (Or.inr h)
        · exact hC h
      rw [if_neg hspec]

/-- C7: during boundary mesh extraction, a voxel with occupancy 0 emits
nothing, and an occupied voxel emits, for each of the 6 axis-aligned
neighbor directions, the two triangles of the shared quad face if and only
if the neighbor is out of grid bounds along that axis or has occupancy 0.
The second conjunct checks that the per-direction corner pattern is exactly
the set of four lattice corners of the face shared with that neighbor. -/
theorem triangle_mesh_dump_emission (cell_size : Vec3i) (occ : ℤ → ℕ) :
    triangle_list cell_size occ =
      (List.range (cell_size.x * cell_size.y * cell_size.z).toNat).flatMap
        (fun i =>
          if occ (Int.ofNat i) = 0 then []
          else
            (List.finRange 6).flatMap (fun d =>
              if spec_neighbor_empty cell_size occ
                  (index3_from_index (Int.ofNat i) cell_size) d
              then spec_face_triangles cell_size
                  (index3_from_index (Int.ofNat i) cell_size) d
              else [])) ∧
    (∀ d : Fin 6,
      ((face_corners d).1 :: (face_corners d).2.1 :: (face_corners d).2.2.1 ::
          [(face_corners d).2.2.2]).Perm
        (((List.finRange 8).map corner_offset).filter
          (fun o => decide (o.nth (dir_axis d) =
            if 0 < (dir_vec d).nth (dir_axis d) then 1 else 0)))) := by
  constructor
  · unfold triangle_list
    congr 1
    funext i
    simp only [voxel_facets]
    by_cases h0 : occ (Int.ofNat i) = 0
    · rw [if_pos h0, if_pos h0]
    · rw [if_neg h0, if_neg h0]
      have e0 := check_facet_eq_spec cell_size occ
        (index3_from_index (Int.ofNat i) cell_size) 0 0 (-1) 0 4 3 7 rfl
        (setNth_dir _ 0) rfl rfl rfl rfl
      have e1 := check_facet_eq_spec cell_size occ
        (index3_from_index (Int.ofNat i) cell_size) 1 0 1 2 6 1 5 rfl
        (setNth_dir _ 1) rfl rfl rfl rfl
      have e2 := check_facet_eq_spec cell_size occ
        (index3_from_index (Int.ofNat i) cell_size) 2 1 (-1) 1 5 0 4 rfl
        (setNth_dir _ 2) rfl rfl rfl rfl
      have e3 := check_facet_eq_spec cell_size occ
        (index3_from_index (Int.ofNat i) cell_size) 3 1 1 3 7 2 6 rfl
        (setNth_dir _ 3) rfl rfl rfl rfl
      have e4 := check_facet_eq_spec cell_size occ
        (index3_from_index (Int.ofNat i) cell_size) 4 2 (-1) 0 1 3 2 rfl
        (setNth_dir _ 4) rfl rfl rfl rfl
      have e5 := check_facet_eq_spec cell_size occ
        (index3_from_index (Int.ofNat i) cell_size) 5 2 1 4 5 7 6 rfl
        (setNth_dir _ 5) rfl rfl rfl rfl
      rw [e0, e1, e2, e3, e4, e5]
      have h6 : (List.finRange 6) = [0, 1, 2, 3, 4, 5] := by decide
      rw [h6]
      simp only [List.flatMap_cons, List.flatMap_nil, List.append_nil,
        List.append_assoc]
  · decide

/-! ### Boundary mesh extraction: vertex id assignment -/

/-- The vertex-deduplication pass of `triangle_mesh_dump`:
`for (index_t &c : triangles) { if (node_id[c] == -1) node_id[c] =
num_vertices++; c = node_id[c]; }`.  Returns the remapped triangle list, the
final `node_id` map and the final `num_vertices`. -/
def assign_vertex_ids : List ℤ → (ℤ → ℤ) → ℤ → List ℤ × (ℤ → ℤ) × ℤ
  | [], node_id, num_vertices => ([], node_id, num_vertices)
  | c :: rest, node_id, num_vertices =>
    if node_id c = -1 then
      let r := assign_vertex_ids rest (Function.update node_id c num_vertices)
        (num_vertices + 1)
      (num_vertices :: r.1, r.2.1, r.2.2)
    else
      let r := assign_vertex_ids rest node_id num_vertices
      (node_id c :: r.1, r.2.1, r.2.2)

/-- The dedup pass as invoked by `triangle_mesh_dump`: `node_id` starts as
the all `-1` vector and `num_vertices` as 0. -/
def dedup_triangles (tris : List ℤ) : List ℤ × (ℤ → ℤ) × ℤ :=
  assign_vertex_ids tris (fun _ => -1) 0

/-- Specification-side: the corner indices in first-encounter order while
walking the raw triangle list. -/
def first_seen_from (acc : List ℤ) (tris : List ℤ) : List ℤ :=
  tris.foldl (fun acc c => if c ∈ acc then acc else acc ++ [c]) acc

/-- The corners in the order they are first encountered. -/
def first_seen (tris : List ℤ) : List ℤ := first_seen_from [] tris

/-- Specification-side `node_id` map determined by a first-encounter list:
position in the list, or -1 for corners never referenced. -/
def spec_node_id (acc : List ℤ) (c : ℤ) : ℤ :=
  if c ∈ acc then (acc.indexOf c : ℤ) else -1

theorem first_seen_from_prefix :
    ∀ (tris : List ℤ) (acc : List ℤ), acc <+: first_seen_from acc tris := by
  intro tris
  induction tris with
  | nil => exact fun acc => List.prefix_refl acc
  | cons c rest ih =>
    intro acc
    have h2 := ih (if c ∈ acc then acc else acc ++ [c])
    refine List.IsPrefix.trans ?_ h2
    by_cases hc : c ∈ acc
    · rw [if_pos hc]
    · rw [if_neg hc]
      exact ⟨[c], rfl⟩

theorem mem_first_seen_from :
    ∀ (tris : List ℤ) (acc : List ℤ) (c : ℤ),
      c ∈ first_seen_from acc tris ↔ c ∈ acc ∨ c ∈ tris := by
  intro tris
  induction tris with
  | nil => simp [first_seen_from]
  | cons a rest ih =>
    intro acc c
    have hstep : c ∈ (if a ∈ acc then acc else acc ++ [a]) ↔ c ∈ acc ∨ c = a := by
      by_cases ha : a ∈ acc
      · rw [if_pos ha]
        constructor
        · exact Or.inl
        · rintro (h | rfl)
          · exact h
          · exact ha
      · rw [if_neg ha]
        simp [List.mem_append]
    show c ∈ first_seen_from (if a ∈ acc then acc else acc ++ [a]) rest ↔ _
    rw [ih, hstep]
    simp only [List.mem_cons]
    tauto

theorem nodup_first_seen_from :
    ∀ (tris : List ℤ) (acc : List ℤ), acc.Nodup → (first_seen_from acc tris).Nodup := by
  intro tris
  induction tris with
  | nil => exact fun _ h => h
  | cons a rest ih =>
    intro acc hacc
    refine ih _ ?_
    show (if a ∈ acc then acc else acc ++ [a]).Nodup
    by_cases ha : a ∈ acc
    · rw [if_pos ha]; exact hacc
    · rw [if_neg ha]
      simp only [List.nodup_append, List.nodup_cons, List.nodup_nil]
      refine ⟨hacc, by simp, ?_⟩
      intro b hb hb'
      simp only [List.mem_singleton] at hb'
      subst hb'
      exact ha hb

theorem indexOf_append_left (t : List ℤ) :
    ∀ (l : List ℤ) (c : ℤ), c ∈ l → (l ++ t).indexOf c = l.indexOf c := by
  intro l
  induction l with
  | nil => intro c hc; simp at hc
  | cons a l ih =>
    intro c hc
    rw [List.cons_append, List.indexOf_cons, List.indexOf_cons]
    by_cases hac : a = c
    · simp [hac]
    · have hbeq : (a == c) = false := by simp [hac]
      rw [hbeq]
      simp only [cond_false]
      have hcl : c ∈ l := by
        rcases List.mem_cons.mp hc with h | h
        · exact absurd h.symm hac
        · exact h
      rw [ih c hcl]

theorem indexOf_append_of_not_mem (t : List ℤ) :
    ∀ (l : List ℤ) (c : ℤ), c ∉ l → (l ++ t).indexOf c = l.length + t.indexOf c := by
  intro l
  induction l with
  | nil => intro c _; simp
  | cons a l ih =>
    intro c hc
    have hac : (a == c) = false := by
      simp only [beq_eq_false_iff_ne, ne_eq]
      intro h
      exact hc (by simp [h])
    rw [List.cons_append, List.indexOf_cons, hac]
    simp only [cond_false, List.length_cons]
    rw [ih c (fun h => hc (List.mem_cons_of_mem a h))]
    omega

/-- Main induction for the dedup pass: starting from the `node_id` map and
counter corresponding to an already-seen prefix `acc`, the loop computes the
first-encounter extension of `acc`. -/
theorem assign_vertex_ids_go :
    ∀ (tris : List ℤ) (acc : List ℤ), acc.Nodup →
      assign_vertex_ids tris (spec_node_id acc) (acc.length : ℤ) =
        (tris.map (fun c => ((first_seen_from acc tris).indexOf c : ℤ)),
         spec_node_id (first_seen_from acc tris),
         ((first_seen_from acc tris).length : ℤ)) := by
  intro tris
  induction tris with
  | nil => intro acc _; simp [assign_vertex_ids, first_seen_from]
  | cons c rest ih =>
    intro acc hacc
    by_cases hc : c ∈ acc
    · have hne : spec_node_id acc c ≠ -1 := by
        rw [spec_node_id, if_pos hc]
        omega
      have hstep : first_seen_from acc (c :: rest) = first_seen_from acc rest := by
        show first_seen_from (if c ∈ acc then acc else acc ++ [c]) rest = _
        rw [if_pos hc]
      rw [assign_vertex_ids, if_neg hne, ih acc hacc, hstep]
      have hhead : spec_node_id acc c = ((first_seen_from acc rest).indexOf c : ℤ) := by
        rw [spec_node_id, if_pos hc]
        obtain ⟨t, ht⟩ := first_seen_from_prefix rest acc
        rw [← ht, indexOf_append_left t acc c hc]
      rw [hhead]
      simp [List.map_cons]
    · have heq : spec_node_id acc c = -1 := by rw [spec_node_id, if_neg hc]
      have hstep : first_seen_from acc (c :: rest) = first_seen_from (acc ++ [c]) rest := by
        show first_seen_from (if c ∈ acc then acc else acc ++ [c]) rest = _
        rw [if_neg hc]
      have hupd : Function.update (spec_node_id acc) c ((acc.length : ℤ)) =
          spec_node_id (acc ++ [c]) := by
        funext d
        by_cases hdc : d = c
        · subst hdc
          rw [Function.update_same, spec_node_id,
            if_pos (by simp), indexOf_append_of_not_mem [d] acc d hc]
          simp
        · rw [Function.update_noteq hdc, spec_node_id, spec_node_id]
          by_cases hdacc : d ∈ acc
          · rw [if_pos hdacc, if_pos (by simp [hdacc]),
              indexOf_append_left [c] acc d hdacc]
          · rw [if_neg hdacc, if_neg (by simp [hdacc, hdc])]
      have hlen : (acc.length : ℤ) + 1 = (((acc ++ [c]).length : ℕ) : ℤ) := by
        simp
      have hnodup : (acc ++ [c]).Nodup := by
        simp only [List.nodup_append, List.nodup_cons, List.nodup_nil]
        refine ⟨hacc, by simp, ?_⟩
        intro b hb hb'
        simp only [List.mem_singleton] at hb'
        subst hb'
        exact hc hb
      rw [assign_vertex_ids, if_pos heq, hupd, hlen, ih (acc ++ [c]) hnodup, hstep]
      have hhead : (acc.length : ℤ) =
          ((first_seen_from (acc ++ [c]) rest).indexOf c : ℤ) := by
        obtain ⟨t, ht⟩ := first_seen_from_prefix rest (acc ++ [c])
        rw [← ht, indexOf_append_left t (acc ++ [c]) c (by simp),
          indexOf_append_of_not_mem [c] acc c hc]
        simp
      rw [hhead]
      simp [List.map_cons]

/-- C8: the dedup pass assigns every referenced corner exactly one compact
id, consecutively from 0 in first-encounter order; every triangle reference
is remapped to its corner's compact id; unreferenced corners stay at -1. -/
theorem triangle_mesh_dump_vertex_dedup (tris : List ℤ) :
    (dedup_triangles tris).1 =
      tris.map (fun c => ((first_seen tris).indexOf c : ℤ)) ∧
    (dedup_triangles tris).2.2 = ((first_seen tris).length : ℤ) ∧
    (∀ c : ℤ, (dedup_triangles tris).2.1 c =
      if c ∈ tris then ((first_seen tris).indexOf c : ℤ) else -1) ∧
    (first_seen tris).Nodup ∧
    (∀ c : ℤ, c ∈ first_seen tris ↔ c ∈ tris) := by
  have hinit : (fun _ : ℤ => (-1 : ℤ)) = spec_node_id [] := by
    funext d
    rw [spec_node_id, if_neg (by simp)]
  have h := assign_vertex_ids_go tris [] List.nodup_nil
  simp only [List.length_nil, Int.natCast_zero] at h
  have hdedup : dedup_triangles tris =
      (tris.map (fun c => ((first_seen tris).indexOf c : ℤ)),
       spec_node_id (first_seen tris),
       ((first_seen tris).length : ℤ)) := by
    rw [dedup_triangles, hinit]
    exact h
  refine ⟨by rw [hdedup], by rw [hdedup], ?_, nodup_first_seen_from tris [] List.nodup_nil,
    fun c => by rw [first_seen, mem_first_seen_from]; simp⟩
  intro c
  rw [hdedup]
  show spec_node_id (first_seen tris) c = _
  rw [spec_node_id]
  by_cases hc : c ∈ tris
  · have hmem : c ∈ first_seen tris := by
      rw [first_seen]
      exact (mem_first_seen_from tris [] c).mpr (Or.inr hc)
    rw [if_pos hmem, if_pos hc]
  · have hmem : ¬ c ∈ first_seen tris := by
      rw [first_seen]
      intro hmem
      rcases (mem_first_seen_from tris [] c).mp hmem with h | h
      · simp at h
      · exact hc h
    rw [if_neg hmem, if_neg hc]

/-! ### Boundary mesh extraction: unit-cube rescale -/

/-- A mesh vertex (`GEO::vec3`), with exact coordinates. -/
structure Vec3 where
  x : ℚ
  y : ℚ
  z : ℚ
  deriving DecidableEq, Repr

/-- Componentwise minimum, as accumulated by `GEO::get_bbox`. -/
def vmin (a b : Vec3) : Vec3 := ⟨min a.x b.x, min a.y b.y, min a.z b.z⟩

/-- Componentwise maximum, as accumulated by `GEO::get_bbox`. -/
def vmax (a b : Vec3) : Vec3 := ⟨max a.x b.x, max a.y b.y, max a.z b.z⟩

/-- `GEO::get_bbox` lower corner over the nonempty vertex list `p :: vs`. -/
def bbox_min (p : Vec3) (vs : List Vec3) : Vec3 := vs.foldl vmin p

/-- `GEO::get_bbox` upper corner over the nonempty vertex list `p :: vs`. -/
def bbox_max (p : Vec3) (vs : List Vec3) : Vec3 := vs.foldl vmax p

/-- `extent = max_corner - min_corner` of `triangle_mesh_dump`. -/
def mesh_extent (p : Vec3) (vs : List Vec3) : Vec3 :=
  ⟨(bbox_max p vs).x - (bbox_min p vs).x,
   (bbox_max p vs).y - (bbox_min p vs).y,
   (bbox_max p vs).z - (bbox_min p vs).z⟩

/-- `scaling = std::max(extent[0], std::max(extent[1], extent[2]))`. -/
def mesh_scaling (p : Vec3) (vs : List Vec3) : ℚ :=
  max (mesh_extent p vs).x (max (mesh_extent p vs).y (mesh_extent p vs).z)

/-- The final rescale loop of `triangle_mesh_dump`:
`point = (point - min_corner) / scaling` for every vertex. -/
def rescale (p : Vec3) (vs : List Vec3) : List Vec3 :=
  (p :: vs).map (fun q =>
    ⟨(q.x - (bbox_min p vs).x) / mesh_scaling p vs,
     (q.y - (bbox_min p vs).y) / mesh_scaling p vs,
     (q.z - (bbox_min p vs).z) / mesh_scaling p vs⟩)

theorem foldl_min_le_init : ∀ (l : List ℚ) (a : ℚ), l.foldl min a ≤ a := by
  intro l
  induction l with
  | nil => intro a; exact le_refl a
  | cons b l ih =>
    intro a
    exact le_trans (ih (min a b)) (min_le_left a b)

theorem foldl_min_le_mem : ∀ (l : List ℚ) (a q : ℚ), q ∈ l → l.foldl min a ≤ q := by
  intro l
  induction l with
  | nil => intro a q hq; simp at hq
  | cons b l ih =>
    intro a q hq
    rcases List.mem_cons.mp hq with rfl | hq
    · exact le_trans (foldl_min_le_init l (min a q)) (min_le_right a q)
    · exact ih (min a b) q hq

theorem le_foldl_max_init : ∀ (l : List ℚ) (a : ℚ), a ≤ l.foldl max a := by
  intro l
  induction l with
  | nil => intro a; exact le_refl a
  | cons b l ih =>
    intro a
    exact le_trans (le_max_left a b) (ih (max a b))

theorem le_foldl_max_mem : ∀ (l : List ℚ) (a q : ℚ), q ∈ l → q ≤ l.foldl max a := by
  intro l
  induction l with
  | nil => intro a q hq; simp at hq
  | cons b l ih =>
    intro a q hq
    rcases List.mem_cons.mp hq with rfl | hq
    · exact le_trans (le_max_right a q) (le_foldl_max_init l (max a q))
    · exact ih (max a b) q hq

theorem foldl_min_map_comm (f : ℚ → ℚ) (hf : ∀ a b : ℚ, f (min a b) = min (f a) (f b)) :
    ∀ (l : List ℚ) (a : ℚ), (l.map f).foldl min (f a) = f (l.foldl min a) := by
  intro l
  induction l with
  | nil => intro a; rfl
  | cons b l ih =>
    intro a
    show (l.map f).foldl min (min (f a) (f b)) = f ((b :: l).foldl min a)
    rw [← hf a b]
    exact ih (min a b)

theorem foldl_max_map_comm (f : ℚ → ℚ) (hf : ∀ a b : ℚ, f (max a b) = max (f a) (f b)) :
    ∀ (l : List ℚ) (a : ℚ), (l.map f).foldl max (f a) = f (l.foldl max a) := by
  intro l
  induction l with
  | nil => intro a; rfl
  | cons b l ih =>
    intro a
    show (l.map f).foldl max (max (f a) (f b)) = f ((b :: l).foldl max a)
    rw [← hf a b]
    exact ih (max a b)

theorem bbox_min_comp (f : Vec3 → ℚ)
    (hf : ∀ a b : Vec3, f (vmin a b) = min (f a) (f b)) :
    ∀ (vs : List Vec3) (p : Vec3), f (bbox_min p vs) = (vs.map f).foldl min (f p) := by
  intro vs
  induction vs with
  | nil => intro p; rfl
  | cons v vs ih =>
    intro p
    show f (bbox_min (vmin p v) vs) = (vs.map f).foldl min (min (f p) (f v))
    rw [← hf p v]
    exact ih (vmin p v)

theorem bbox_max_comp (f : Vec3 → ℚ)
    (hf : ∀ a b : Vec3, f (vmax a b) = max (f a) (f b)) :
    ∀ (vs : List Vec3) (p : Vec3), f (bbox_max p vs) = (vs.map f).foldl max (f p) := by
  intro vs
  induction vs with
  | nil => intro p; rfl
  | cons v vs ih =>
    intro p
    show f (bbox_max (vmax p v) vs) = (vs.map f).foldl max (max (f p) (f v))
    rw [← hf p v]
    exact ih (vmax p v)

theorem rat_min_hom (c s : ℚ) (hs : 0 < s) :
    ∀ a b : ℚ, (min a b - c) / s = min ((a - c) / s) ((b - c) / s) := by
  intro a b
  rcases le_total a b with h | h
  · rw [min_eq_left h, min_eq_left ((div_le_div_iff_of_pos_right hs).mpr (by linarith))]
  · rw [min_eq_right h, min_eq_right ((div_le_div_iff_of_pos_right hs).mpr (by linarith))]

theorem rat_max_hom (c s : ℚ) (hs : 0 < s) :
    ∀ a b : ℚ, (max a b - c) / s = max ((a - c) / s) ((b - c) / s) := by
  intro a b
  rcases le_total a b with h | h
  · rw [max_eq_right h, max_eq_right ((div_le_div_iff_of_pos_right hs).mpr (by linarith))]
  · rw [max_eq_left h, max_eq_left ((div_le_div_iff_of_pos_right hs).mpr (by linarith))]

theorem bbox_min_rescaled (g : Vec3 → Vec3) (f : Vec3 → ℚ) (c s : ℚ)
    (hfmin : ∀ a b : Vec3, f (vmin a b) = min (f a) (f b))
    (hg : ∀ v : Vec3, f (g v) = (f v - c) / s)
    (hs : 0 < s) (vs : List Vec3) (p : Vec3) :
    f (bbox_min (g p) (vs.map g)) = (f (bbox_min p vs) - c) / s := by
  rw [bbox_min_comp f hfmin (vs.map g) (g p)]
  have h1 : (vs.map g).map f = (vs.map f).map (fun t => (t - c) / s) := by
    rw [List.map_map, List.map_map]
    congr 1
    funext v
    exact hg v
  rw [h1, hg p,
    foldl_min_map_comm (fun t => (t - c) / s) (rat_min_hom c s hs) (vs.map f) (f p),
    bbox_min_comp f hfmin vs p]

theorem bbox_max_rescaled (g : Vec3 → Vec3) (f : Vec3 → ℚ) (c s : ℚ)
    (hfmax : ∀ a b : Vec3, f (vmax a b) = max (f a) (f b))
    (hg : ∀ v : Vec3, f (g v) = (f v - c) / s)
    (hs : 0 < s) (vs : List Vec3) (p : Vec3) :
    f (bbox_max (g p) (vs.map g)) = (f (bbox_max p vs) - c) / s := by
  rw [bbox_max_comp f hfmax (vs.map g) (g p)]
  have h1 : (vs.map g).map f = (vs.map f).map (fun t => (t - c) / s) := by
    rw [List.map_map, List.map_map]
    congr 1
    funext v
    exact hg v
  rw [h1, hg p,
    foldl_max_map_comm (fun t => (t - c) / s) (rat_max_hom c s hs) (vs.map f) (f p),
    bbox_max_comp f hfmax vs p]

/-- C9: for a non-degenerate output mesh, the rescale anchors the bounding
box at the origin (minimum vertex coordinate 0 on all axes), the maximum of
the rescaled bounding box is 1 on at least one axis, every coordinate lies
in `[0, 1]`, and the ratios between the three extents are preserved. -/
theorem triangle_mesh_dump_rescale (p : Vec3) (vs : List Vec3) (q : Vec3)
    (qs : List Vec3) (hs : 0 < mesh_scaling p vs)
    (hq : rescale p vs = q :: qs) :
    bbox_min q qs = ⟨0, 0, 0⟩ ∧
    bbox_max q qs = ⟨(mesh_extent p vs).x / mesh_scaling p vs,
      (mesh_extent p vs).y / mesh_scaling p vs,
      (mesh_extent p vs).z / mesh_scaling p vs⟩ ∧
    ((bbox_max q qs).x = 1 ∨ (bbox_max q qs).y = 1 ∨ (bbox_max q qs).z = 1) ∧
    (∀ r ∈ q :: qs, 0 ≤ r.x ∧ r.x ≤ 1 ∧ 0 ≤ r.y ∧ r.y ≤ 1 ∧
      0 ≤ r.z ∧ r.z ≤ 1) ∧
    ((bbox_max q qs).x - (bbox_min q qs).x) * (mesh_extent p vs).y =
      ((bbox_max q qs).y - (bbox_min q qs).y) * (mesh_extent p vs).x ∧
    ((bbox_max q qs).x - (bbox_min q qs).x) * (mesh_extent p vs).z =
      ((bbox_max q qs).z - (bbox_min q qs).z) * (mesh_extent p vs).x ∧
    ((bbox_max q qs).y - (bbox_min q qs).y) * (mesh_extent p vs).z =
      ((bbox_max q qs).z - (bbox_min q qs).z) * (mesh_extent p vs).y := by
  rw [rescale, List.map_cons] at hq
  injection hq with h1 h2
  subst h1
  subst h2
  have hminx := bbox_min_rescaled
    (fun v => (⟨(v.x - (bbox_min p vs).x) / mesh_scaling p vs,
      (v.y - (bbox_min p vs).y) / mesh_scaling p vs,
      (v.z - (bbox_min p vs).z) / mesh_scaling p vs⟩ : Vec3))
    Vec3.x (bbox_min p vs).x (mesh_scaling p vs)
    (fun a b => rfl) (fun v => rfl) hs vs p
  have hminy := bbox_min_rescaled
    (fun v => (⟨(v.x - (bbox_min p vs).x) / mesh_scaling p vs,
      (v.y - (bbox_min p vs).y) / mesh_scaling p vs,
      (v.z - (bbox_min p vs).z) / mesh_scaling p vs⟩ : Vec3))
    Vec3.y (bbox_min p vs).y (mesh_scaling p vs)
    (fun a b => rfl) (fun v => rfl) hs vs p
  have hminz := bbox_min_rescaled
    (fun v => (⟨(v.x - (bbox_min p vs).x) / mesh_scaling p vs,
      (v.y - (bbox_min p vs).y) / mesh_scaling p vs,
      (v.z - (bbox_min p vs).z) / mesh_scaling p vs⟩ : Vec3))
    Vec3.z (bbox_min p vs).z (mesh_scaling p vs)
    (fun a b => rfl) (fun v => rfl) hs vs p
  have hmaxx := bbox_max_rescaled
    (fun v => (⟨(v.x - (bbox_min p vs).x) / mesh_scaling p vs,
      (v.y - (bbox_min p vs).y) / mesh_scaling p vs,
      (v.z - (bbox_min p vs).z) / mesh_scaling p vs⟩ : Vec3))
    Vec3.x (bbox_min p vs).x (mesh_scaling p vs)
    (fun a b => rfl) (fun v => rfl) hs vs p
  have hmaxy := bbox_max_rescaled
    (fun v => (⟨(v.x - (bbox_min p vs).x) / mesh_scaling p vs,
      (v.y - (bbox_min p vs).y) / mesh_scaling p vs,
      (v.z - (bbox_min p vs).z) / mesh_scaling p vs⟩ : Vec3))
    Vec3.y (bbox_min p vs).y (mesh_scaling p vs)
    (fun a b => rfl) (fun v => rfl) hs vs p
  have hmaxz := bbox_max_rescaled
    (fun v => (⟨(v.x - (bbox_min p vs).x) / mesh_scaling p vs,
      (v.y - (bbox_min p vs).y) / mesh_scaling p vs,
      (v.z - (bbox_min p vs).z) / mesh_scaling p vs⟩ : Vec3))
    Vec3.z (bbox_min p vs).z (mesh_scaling p vs)
    (fun a b => rfl) (fun v => rfl) hs vs p
  simp only [sub_self, zero_div] at hminx hminy hminz
  have hbmin : bbox_min
      (⟨(p.x - (bbox_min p vs).x) / mesh_scaling p vs,
        (p.y - (bbox_min p vs).y) / mesh_scaling p vs,
        (p.z - (bbox_min p vs).z) / mesh_scaling p vs⟩ : Vec3)
      (vs.map (fun v => (⟨(v.x - (bbox_min p vs).x) / mesh_scaling p vs,
        (v.y - (bbox_min p vs).y) / mesh_scaling p vs,
        (v.z - (bbox_min p vs).z) / mesh_scaling p vs⟩ : Vec3))) = ⟨0, 0, 0⟩ := by
    rw [show bbox_min
      (⟨(p.x - (bbox_min p vs).x) / mesh_scaling p vs,
        (p.y - (bbox_min p vs).y) / mesh_scaling p vs,
        (p.z - (bbox_min p vs).z) / mesh_scaling p vs⟩ : Vec3)
      (vs.map (fun v => (⟨(v.x - (bbox_min p vs).x) / mesh_scaling p vs,
        (v.y - (bbox_min p vs).y) / mesh_scaling p vs,
        (v.z - (bbox_min p vs).z) / mesh_scaling p vs⟩ : Vec3))) =
      ⟨(bbox_min _ _).x, (bbox_min _ _).y, (bbox_min _ _).z⟩ from rfl,
      hminx, hminy, hminz]
  have hbmax : bbox_max
      (⟨(p.x - (bbox_min p vs).x) / mesh_scaling p vs,
        (p.y - (bbox_min p vs).y) / mesh_scaling p vs,
        (p.z - (bbox_min p vs).z) / mesh_scaling p vs⟩ : Vec3)
      (vs.map (fun v => (⟨(v.x - (bbox_min p vs).x) / mesh_scaling p vs,
        (v.y - (bbox_min p vs).y) / mesh_scaling p vs,
        (v.z - (bbox_min p vs).z) / mesh_scaling p vs⟩ : Vec3))) =
      ⟨(mesh_extent p vs).x / mesh_scaling p vs,
       (mesh_extent p vs).y / mesh_scaling p vs,
       (mesh_extent p vs).z / mesh_scaling p vs⟩ := by
    rw [show bbox_max
      (⟨(p.x - (bbox_min p vs).x) / mesh_scaling p vs,
        (p.y - (bbox_min p vs).y) / mesh_scaling p vs,
        (p.z - (bbox_min p vs).z) / mesh_scaling p vs⟩ : Vec3)
      (vs.map (fun v => (⟨(v.x - (bbox_min p vs).x) / mesh_scaling p vs,
        (v.y - (bbox_min p vs).y) / mesh_scaling p vs,
        (v.z - (bbox_min p vs).z) / mesh_scaling p vs⟩ : Vec3))) =
      ⟨(bbox_max _ _).x, (bbox_max _ _).y, (bbox_max _ _).z⟩ from rfl,
      hmaxx, hmaxy, hmaxz]
    rfl
  refine ⟨hbmin, hbmax, ?_, ?_, ?_, ?_, ?_⟩
  · rw [hbmax]
    rcases max_choice (mesh_extent p vs).x (max (mesh_extent p vs).y (mesh_extent p vs).z)
      with h | h
    · left
      show (mesh_extent p vs).x / mesh_scaling p vs = 1
      rw [show mesh_scaling p vs = (mesh_extent p vs).x from h.symm ▸ rfl]
      exact div_self (by rw [show (mesh_extent p vs).x = mesh_scaling p vs from by
        rw [mesh_scaling, h]]; exact ne_of_gt hs)
    · rcases max_choice (mesh_extent p vs).y (mesh_extent p vs).z with h2 | h2
      · right; left
        show (mesh_extent p vs).y / mesh_scaling p vs = 1
        have hsy : mesh_scaling p vs = (mesh_extent p vs).y := by
          rw [mesh_scaling, h, h2]
        rw [hsy]
        exact div_self (by rw [← hsy]; exact ne_of_gt hs)
      · right; right
        show (mesh_extent p vs).z / mesh_scaling p vs = 1
        have hsz : mesh_scaling p vs = (mesh_extent p vs).z := by
          rw [mesh_scaling, h, h2]
        rw [hsz]
        exact div_self (by rw [← hsz]; exact ne_of_gt hs)
  · intro r hr
    have hr' : r ∈ (p :: vs).map (fun v => (⟨(v.x - (bbox_min p vs).x) / mesh_scaling p vs,
        (v.y - (bbox_min p vs).y) / mesh_scaling p vs,
        (v.z - (bbox_min p vs).z) / mesh_scaling p vs⟩ : Vec3)) := by
      rw [List.map_cons]
      exact hr
    obtain ⟨v, hv, rfl⟩ := List.mem_map.mp hr'
    have hvminx : (bbox_min p vs).x ≤ v.x := by
      rw [bbox_min_comp Vec3.x (fun a b => rfl) vs p]
      rcases List.mem_cons.mp hv with rfl | hv
      · exact foldl_min_le_init _ _
      · exact foldl_min_le_mem _ _ _ (List.mem_map_of_mem Vec3.x hv)
    have hvminy : (bbox_min p vs).y ≤ v.y := by
      rw [bbox_min_comp Vec3.y (fun a b => rfl) vs p]
      rcases List.mem_cons.mp hv with rfl | hv
      · exact foldl_min_le_init _ _
      · exact foldl_min_le_mem _ _ _ (List.mem_map_of_mem Vec3.y hv)
    have hvminz : (bbox_min p vs).z ≤ v.z := by
      rw [bbox_min_comp Vec3.z (fun a b => rfl) vs p]
      rcases List.mem_cons.mp hv with rfl | hv
      · exact foldl_min_le_init _ _
      · exact foldl_min_le_mem _ _ _ (List.mem_map_of_mem Vec3.z hv)
    have hvmaxx : v.x ≤ (bbox_max p vs).x := by
      rw [bbox_max_comp Vec3.x (fun a b => rfl) vs p]
      rcases List.mem_cons.mp hv with rfl | hv
      · exact le_foldl_max_init _ _
      · exact le_foldl_max_mem _ _ _ (List.mem_map_of_mem Vec3.x hv)
    have hvmaxy : v.y ≤ (bbox_max p vs).y := by
      rw [bbox_max_comp Vec3.y (fun a b => rfl) vs p]
      rcases List.mem_cons.mp hv with rfl | hv
      · exact le_foldl_max_init _ _
      · exact le_foldl_max_mem _ _ _ (List.mem_map_of_mem Vec3.y hv)
    have hvmaxz : v.z ≤ (bbox_max p vs).z := by
      rw [bbox_max_comp Vec3.z (fun a b => rfl) vs p]
      rcases List.mem_cons.mp hv with rfl | hv
      · exact le_foldl_max_init _ _
      · exact le_foldl_max_mem _ _ _ (List.mem_map_of_mem Vec3.z hv)
    have hex : (mesh_extent p vs).x ≤ mesh_scaling p vs := le_max_left _ _
    have hey : (mesh_extent p vs).y ≤ mesh_scaling p vs :=
      le_trans (le_max_left _ _) (le_max_right _ _)
    have hez : (mesh_extent p vs).z ≤ mesh_scaling p vs :=
      le_trans (le_max_right _ _) (le_max_right _ _)
    simp only [mesh_extent] at hex hey hez
    refine ⟨div_nonneg (by linarith) (le_of_lt hs), (div_le_one hs).mpr (by linarith),
      div_nonneg (by linarith) (le_of_lt hs), (div_le_one hs).mpr (by linarith),
      div_nonneg (by linarith) (le_of_lt hs), (div_le_one hs).mpr (by linarith)⟩
  · rw [hbmin, hbmax]
    show ((mesh_extent p vs).x / mesh_scaling p vs - 0) * (mesh_extent p vs).y =
      ((mesh_extent p vs).y / mesh_scaling p vs - 0) * (mesh_extent p vs).x
    field_simp
    ring
  · rw [hbmin, hbmax]
    show ((mesh_extent p vs).x / mesh_scaling p vs - 0) * (mesh_extent p vs).z =
      ((mesh_extent p vs).z / mesh_scaling p vs - 0) * (mesh_extent p vs).x
    field_simp
    ring
  · rw [hbmin, hbmax]
    show ((mesh_extent p vs).y / mesh_scaling p vs - 0) * (mesh_extent p vs).z =
      ((mesh_extent p vs).z / mesh_scaling p vs - 0) * (mesh_extent p vs).y
    field_simp
    ring

/-- Witness for C9 on the unit-extent mesh { (0,0,0), (1,1,1) }. -/
theorem triangle_mesh_dump_rescale_witness :
    (0 : ℚ) < mesh_scaling ⟨0, 0, 0⟩ [⟨1, 1, 1⟩] ∧
    rescale ⟨0, 0, 0⟩ [⟨1, 1, 1⟩] = ⟨0, 0, 0⟩ :: [⟨1, 1, 1⟩] ∧
    bbox_min (⟨0, 0, 0⟩ : Vec3) [⟨1, 1, 1⟩] = ⟨0, 0, 0⟩ := by
  have hs : (0 : ℚ) < mesh_scaling ⟨0, 0, 0⟩ [⟨1, 1, 1⟩] := by
    norm_num [mesh_scaling, mesh_extent, bbox_max, bbox_min, vmax, vmin]
  have hq : rescale ⟨0, 0, 0⟩ [⟨1, 1, 1⟩] = ⟨0, 0, 0⟩ :: [⟨1, 1, 1⟩] := by
    norm_num [rescale, mesh_scaling, mesh_extent, bbox_max, bbox_min, vmax, vmin]
  exact ⟨hs, hq,
    (triangle_mesh_dump_rescale ⟨0, 0, 0⟩ [⟨1, 1, 1⟩] ⟨0, 0, 0⟩ [⟨1, 1, 1⟩] hs hq).1⟩

end VoxMesh
